import Mathlib

/-!
Verification of the `mido.sockets` transport layer (MIDI over TCP/IP).

The development shallowly embeds `src/mido/sockets.py`.  Socket and file
I/O is represented by explicit environment values: a pump step receives
the list of read results the socket would deliver (`_is_readable`
returning `False` corresponds to the list being exhausted), and a send
step acts on a buffered stream value.  External collaborators that the
module imports from elsewhere in the repository (`mido.parser`,
`mido.ports`, `mido.messages`) are not under `src/`; they are modelled
from the specification and are marked as such in their doc comments.
-/

namespace Mido

/-! ### Incremental binary MIDI parser (external collaborator) -/

/-- Modelled from the spec: the expected total length (status byte
included) of a MIDI channel message, determined by its status byte.
Mirrors the message-length table used by `mido/parser.py` (not under
`src/`): note off/on, poly pressure and control change (`0x80`–`0xBF`)
take two data bytes, program change and channel pressure
(`0xC0`–`0xDF`) take one, pitch wheel (`0xE0`–`0xEF`) takes two. -/
def msg_len (status : Nat) : Nat :=
  if status < 0xC0 then 3
  else if status < 0xE0 then 2
  else 3

/-- A complete binary MIDI channel message: a status byte in
`[0x80, 0xF0)` followed by data bytes below `0x80`, with total length
given by `msg_len` of the status byte. -/
def valid_msg (m : List Nat) : Bool :=
  match m with
  | [] => false
  | s :: rest =>
      0x80 ≤ s && s < 0xF0 && rest.all (fun b => b < 0x80) &&
        m.length = msg_len s

/-- State of the incremental byte-level MIDI parser: the bytes of the
message currently being assembled (status byte first) and the FIFO queue
of fully decoded messages.  The queue doubles as the port's
pending-message queue (`SocketPort.__init__` aliases `self._messages`
to `self._parser._parsed_messages`). -/
structure ParserState where
  buf : List Nat
  messages : List (List Nat)
  deriving Repr, DecidableEq

/-- Modelled from the spec: `Parser.feed_byte` of `mido/parser.py` (not
under `src/`), the incremental byte-level parser's feed-byte operation.
A status byte in `[0x80, 0xF0)` starts a new message; a data byte below
`0x80` extends the current one, and when the message reaches its
expected length it is appended to the decoded-message queue.  Data
bytes with no pending status byte and system bytes `≥ 0xF0` are
ignored in this model. -/
def feed_byte (st : ParserState) (b : Nat) : ParserState :=
  if 0x80 ≤ b ∧ b < 0xF0 then
    { st with buf := [b] }
  else if b < 0x80 then
    match st.buf with
    | [] => st
    | s :: acc =>
        let buf := s :: acc ++ [b]
        if buf.length = msg_len s then
          { buf := [], messages := st.messages ++ [buf] }
        else
          { st with buf := buf }
  else
    st

/-- Feeding a byte sequence one byte at a time, as the binary branch of
`SocketPort._pending` does. -/
def feedBytes (st : ParserState) (bytes : List Nat) : ParserState :=
  bytes.foldl feed_byte st

/-! ### Transport Port state -/

/-- One result of a binary-mode read (`self.file.read(1)` in
`SocketPort._pending`): a byte, end-of-stream (`read` returned `''`),
or a raised `socket.error`.  The pump's readiness check
(`_is_readable`) returning `False` corresponds to the event list being
exhausted. -/
inductive BinRead where
  | byte (b : Nat)
  | eof
  | err
  deriving Repr, DecidableEq

/-- One result of a text-mode read (`self.file.readline()` in
`SocketPort._pending`): a line, or end-of-stream (`readline` returned
`''`). -/
inductive TextRead where
  | line (s : List Char)
  | eofLine
  deriving Repr, DecidableEq

/-- A decoding failure raised by the text-mode string decoder
(`parse_string` raising `ValueError` on malformed input). -/
inductive DecodeError where
  | malformed (s : List Char)
  deriving Repr, DecidableEq

/-- Modelled from the spec: `parse_string` of `mido/messages.py` (not
under `src/`), the string-to-message decoder for text mode.  A line is
well formed when it spells out the decimal byte values of one valid
binary MIDI message, separated by single spaces; any other line is
malformed and makes the decoder fail. -/
def parse_string (s : List Char) : Option (List Nat) :=
  let toks := (splitSpaces s).map digitsVal
  match seqOption toks with
  | none => none
  | some bytes => if valid_msg bytes then some bytes else none
where
  /-- Split a character list on single spaces. -/
  splitSpaces : List Char → List (List Char)
    | [] => [[]]
    | c :: rest =>
        if c = ' ' then [] :: splitSpaces rest
        else
          match splitSpaces rest with
          | [] => [[c]]
          | w :: ws => (c :: w) :: ws
  /-- A nonempty all-digit token's decimal value. -/
  digitsVal (w : List Char) : Option Nat :=
    if w ≠ [] && w.all (fun c => '0' ≤ c && c ≤ '9') then
      some (w.foldl (fun n c => 10 * n + (c.toNat - 48)) 0)
    else
      none
  /-- Sequence a list of options. -/
  seqOption : List (Option Nat) → Option (List Nat)
    | [] => some []
    | none :: _ => none
    | some b :: rest => (seqOption rest).map (fun bs => b :: bs)

/-- The state of a `SocketPort`: display name, the monotonic `closed`
flag, the parser state (whose queue is also the pending-message queue),
the wire-format selector and the underlying connection handle.  The
buffered file object is kept outside the port state (see
`FileStream`). -/
structure SocketPort where
  name : String
  closed : Bool
  parser : ParserState
  string_protocol : Bool
  socket : Nat
  deriving Repr, DecidableEq

/-- The constructor `SocketPort.__init__`: derives the display name from `host:port`,
starts open with a fresh parser, and either wraps the connection handed
in (`conn`) or opens a new client connection, represented by the
environment-provided handle `fresh`. -/
def SocketPort.init (host : String) (portno : Nat) (conn : Option Nat)
    (string_protocol : Bool) (fresh : Nat) : SocketPort :=
  { name := host ++ ":" ++ toString portno
    closed := false
    parser := { buf := [], messages := [] }
    string_protocol := string_protocol
    socket :=
      match conn with
      | none => fresh
      | some c => c }

/-- Modelled from the spec: `BasePort.close` of `mido/ports.py` (not
under `src/`) sets the `closed` flag and releases the underlying
connection (`SocketPort._close`); the flag only ever moves from `false`
to `true`. -/
def SocketPort.close (port : SocketPort) : SocketPort :=
  { port with closed := true }

/-- Result of one pump step: the port state afterwards, the number of
read calls performed, and the exception, if any, that propagated to the
caller. -/
structure PumpResult where
  port : SocketPort
  reads : Nat
  error : Option DecodeError
  deriving Repr, DecidableEq

/-- The binary branch of `SocketPort._pending`: while data is readable,
read one byte and feed it to the incremental parser; end-of-stream
closes the port and stops the loop, and a `socket.error` is caught,
closes the port and stops the loop.  No exception escapes this
branch. -/
def SocketPort.pendingBin : SocketPort → List BinRead → PumpResult
  | port, [] => ⟨port, 0, none⟩
  | port, .byte b :: rest =>
      let r := SocketPort.pendingBin
        { port with parser := feed_byte port.parser b } rest
      ⟨r.port, r.reads + 1, r.error⟩
  | port, .eof :: _ => ⟨port.close, 1, none⟩
  | port, .err :: _ => ⟨port.close, 1, none⟩

/-- The text branch of `SocketPort._pending`: while data is readable,
read one line; an empty result closes the port and stops the loop;
otherwise the line is decoded by `parse_string` and the message is
appended to the pending queue.  A decoding failure propagates to the
caller, leaving the port state as it was at the raise point. -/
def SocketPort.pendingText : SocketPort → List TextRead → PumpResult
  | port, [] => ⟨port, 0, none⟩
  | port, .eofLine :: _ => ⟨port.close, 1, none⟩
  | port, .line s :: rest =>
      match parse_string s with
      | none => ⟨port, 1, some (.malformed s)⟩
      | some m =>
          let port' :=
            { port with parser :=
                { port.parser with
                    messages := port.parser.messages ++ [m] } }
          let r := SocketPort.pendingText port' rest
          ⟨r.port, r.reads + 1, r.error⟩

/-- Modelled from the spec: the pump step as exposed by the port.  The
`BaseInput` wrapper in `mido/ports.py` (not under `src/`) guards on the
`closed` flag — "once `closed` is true, no further reads or writes are
attempted; the port is inert" — before running `SocketPort._pending`,
which dispatches on the wire-format selector. -/
def SocketPort.pump (port : SocketPort) (binInput : List BinRead)
    (textInput : List TextRead) : PumpResult :=
  if port.closed then ⟨port, 0, none⟩
  else if port.string_protocol then port.pendingText textInput
  else port.pendingBin binInput

/-! ### Send step -/

/-- An abstract MIDI message object (external collaborator,
`mido/messages.py`): `bin` is its binary encoding (`message.bin()`),
`text` its canonical textual representation (`str(message)`). -/
structure Message where
  bin : List Nat
  text : List Char
  deriving Repr, DecidableEq

/-- The buffered read/write file object over the connection
(`self.file`): written bytes accumulate in `buf` until a `flush` moves
them onto the wire. -/
structure FileStream where
  buf : List Nat
  wire : List Nat
  deriving Repr, DecidableEq

/-- The operation `file.write`: append to the stream's buffer. -/
def FileStream.write (f : FileStream) (data : List Nat) : FileStream :=
  { f with buf := f.buf ++ data }

/-- The operation `file.flush`: push the buffered bytes onto the wire. -/
def FileStream.flush (f : FileStream) : FileStream :=
  { buf := [], wire := f.wire ++ f.buf }

/-- The bytes of a textual line. -/
def strBytes (s : List Char) : List Nat :=
  s.map Char.toNat

/-- The send step `SocketPort._send`: in text mode write
`'{}\n'.format(message)` — the canonical text followed by a newline —
and in binary mode write `message.bin()`; in both modes flush the
stream immediately afterwards.  The body contains no exception handler
and never touches the port state, so a write failure propagates to the
caller with the port left unchanged. -/
def SocketPort._send (port : SocketPort) (f : FileStream)
    (message : Message) : FileStream :=
  let f' :=
    if port.string_protocol then
      f.write (strBytes (message.text ++ [Char.ofNat 10]))
    else
      f.write message.bin
  f'.flush

/-! ### Port lifecycle operations -/

/-- One operation applied to a port, for tracking the evolution of the
`closed` flag: an explicit close request, a pump step with the given
read events, or a send whose stream write either succeeds or raises an
I/O error (`writeOk`). -/
inductive Op where
  | close
  | pumpOp (binInput : List BinRead) (textInput : List TextRead)
  | sendOp (message : Message) (writeOk : Bool)
  deriving Repr, DecidableEq

/-- The port state after one operation.  `_send` (lines 147–153 of
`sockets.py`) only writes to the stream: it has no exception handler
and never assigns `closed`, so both a successful and a failing send
leave the port state unchanged (on failure the I/O error propagates to
the caller). -/
def run_op (port : SocketPort) (op : Op) : SocketPort :=
  match op with
  | .close => port.close
  | .pumpOp binInput textInput => (port.pump binInput textInput).port
  | .sendOp _ _ => port

/-! ### Port Server -/

/-- The server's state: bound host and port, and the ordered collection
of live `SocketPort`s (insertion order = accept order). -/
structure PortServer where
  host : String
  portno : Nat
  ports : List SocketPort
  deriving Repr, DecidableEq

/-- The prune step `PortServer._update_ports`: remove closed ports from the live-port
collection. -/
def PortServer.updatePorts (sv : PortServer) : PortServer :=
  { sv with ports := sv.ports.filter (fun port => !port.closed) }

/-- The environment of one accept attempt: whether `_is_readable` on
the listening socket reports a pending connection, and — when one is
pending — the accepted connection handle and the peer's address. -/
structure AcceptEnv where
  pending : Bool
  conn : Nat
  peerHost : String
  peerPort : Nat

/-- The accept step `PortServer.accept`: with `block=False`, return `None` immediately
when the listening socket has no pending connection; otherwise prune
closed ports, accept the connection and wrap it in a server-accepted
`SocketPort` (binary mode: `string_protocol` defaults to `False`). -/
def PortServer.accept (sv : PortServer) (env : AcceptEnv)
    (block : Bool) : Option SocketPort × PortServer :=
  if !block && !env.pending then
    (none, sv)
  else
    let sv' := sv.updatePorts
    (some (SocketPort.init env.peerHost env.peerPort (some env.conn)
      false 0), sv')

/-- Observable actions of one cycle of `PortServer.__iter__`, in
program order: the non-blocking accept attempt (the readiness check on
the listening socket), accepting a pending connection, a
`_update_ports` prune, the receive sweep over the live ports, and the
trailing backoff `sleep()`. -/
inductive Action where
  | acceptAttempt
  | acceptConn
  | prune
  | sweep
  | backoff
  deriving Repr, DecidableEq

/-- The environment of one cycle: the accept environment plus, for each
position in the live-port collection, the read events its socket would
deliver during the sweep. -/
structure CycleEnv where
  acceptEnv : AcceptEnv
  binInput : Nat → List BinRead
  textInput : Nat → List TextRead

/-- Modelled from the spec: the receive sweep
(`multi_iter_pending(self.ports)`, from `mido/ports.py`, not under
`src/`): for every live port in collection order, pump its incoming
bytes and drain its pending-message queue, concatenating the drained
messages.  A decode error raised by a text-mode pump propagates and
aborts the sweep. -/
def sweepPorts' (binInput : Nat → List BinRead)
    (textInput : Nat → List TextRead) :
    List SocketPort → Nat → List SocketPort × List (List Nat) × Option DecodeError
  | [], _ => ([], [], none)
  | port :: rest, i =>
      let r := port.pump (binInput i) (textInput i)
      let drained :=
        { r.port with parser := { r.port.parser with messages := [] } }
      match r.error with
      | some e => (drained :: rest, r.port.parser.messages, some e)
      | none =>
          let (rest', msgs, e) := sweepPorts' binInput textInput rest (i + 1)
          (drained :: rest', r.port.parser.messages ++ msgs, e)

/-- The result of one cycle of the server's combined iteration: the
server afterwards, the messages yielded, the error (if any) that
propagated out of the sweep, the ordered trace of the cycle's actions,
and the live-port collection as the receive sweep began. -/
structure CycleResult where
  server : PortServer
  messages : List (List Nat)
  error : Option DecodeError
  trace : List Action
  sweepEntryPorts : List SocketPort

/-- One cycle of `PortServer.__iter__`: a non-blocking accept attempt
(appending any new port to the collection), then `_update_ports`, then
the receive sweep over the live ports, then the backoff sleep.  Note
that `accept(block=False)` itself prunes only when a connection is
pending, and that both prunes happen after the readiness check that
constitutes the accept attempt. -/
def PortServer.cycle (sv : PortServer) (env : CycleEnv) : CycleResult :=
  let (portOpt, sv1) := sv.accept env.acceptEnv false
  let acceptTrace :=
    if env.acceptEnv.pending then
      [Action.acceptAttempt, Action.prune, Action.acceptConn]
    else
      [Action.acceptAttempt]
  let sv2 :=
    match portOpt with
    | some port => { sv1 with ports := sv1.ports ++ [port] }
    | none => sv1
  let sv3 := sv2.updatePorts
  let (ports', msgs, e) := sweepPorts' env.binInput env.textInput sv3.ports 0
  { server := { sv3 with ports := ports' }
    messages := msgs
    error := e
    trace := acceptTrace ++ [Action.prune, Action.sweep, Action.backoff]
    sweepEntryPorts := sv3.ports }

/-- The module-level `connect`: build a client `SocketPort`.  The source passes only
`host`, `port` and `string_protocol` on to `SocketPort`, so the `conn`
argument is dropped and a new client connection (the
environment-provided `fresh` handle) is always opened. -/
def connect (host : String) (port : Nat) (conn : Option Nat)
    (string_protocol : Bool) (fresh : Nat) : SocketPort :=
  SocketPort.init host port none string_protocol fresh

/-! ### Address parser -/

/-- The validation failure raised by `parse_address` (the spec's
`FormatError`; the source raises `ValueError` with a message
distinguishing the three causes). -/
inductive FormatError where
  | colons
  | notInt
  | range
  deriving Repr, DecidableEq

/-- The split `address.split(':')` on a character list: split on every colon. -/
def split_colon : List Char → List (List Char)
  | [] => [[]]
  | c :: rest =>
      if c = ':' then [] :: split_colon rest
      else
        match split_colon rest with
        | [] => [[c]]
        | w :: ws => (c :: w) :: ws

/-- Modelled from the spec: Python's `int()` builtin applied to the
port segment — an optional sign followed by one or more decimal
digits. -/
def py_int (s : List Char) : Option Int :=
  match s with
  | '-' :: ds => (digitsNat ds).map (fun n => -(n : Int))
  | '+' :: ds => (digitsNat ds).map (fun n => (n : Int))
  | ds => (digitsNat ds).map (fun n => (n : Int))
where
  /-- A nonempty all-digit string's decimal value. -/
  digitsNat (w : List Char) : Option Nat :=
    if w ≠ [] && w.all (fun c => '0' ≤ c && c ≤ '9') then
      some (w.foldl (fun n c => 10 * n + (c.toNat - 48)) 0)
    else
      none

/-- The parser `parse_address`: split on colons and demand exactly two segments;
parse the second as an integer; demand `0 < port < 2 ** 16` (port 0 is
explicitly disallowed).  Returns the host segment unchanged with the
port number.  Pure: no side effects. -/
def parse_address (address : List Char) :
    Except FormatError (List Char × Int) :=
  match split_colon address with
  | [host, portStr] =>
      match py_int portStr with
      | none => .error .notInt
      | some p =>
          if 0 < p ∧ p < 65536 then .ok (host, p)
          else .error .range
  | _ => .error .colons

/-- Feeding a byte stream to a port's pump step in a given chunking:
each chunk is the set of bytes available during one pump step, read one
byte at a time by the binary branch of `_pending`. -/
def pumpChunks (port : SocketPort) (chunks : List (List Nat)) : SocketPort :=
  chunks.foldl (fun p c => (p.pump (c.map BinRead.byte) []).port) port

/-! ## Lemmas about the binary pump -/

theorem pendingBin_bytes (bytes : List Nat) : ∀ port : SocketPort,
    port.pendingBin (bytes.map BinRead.byte) =
      ⟨{ port with parser := feedBytes port.parser bytes },
        bytes.length, none⟩ := by
  induction bytes with
  | nil => intro port; simp [SocketPort.pendingBin, feedBytes]
  | cons b bs ih =>
      intro port
      simp [SocketPort.pendingBin, ih, feedBytes]

theorem pump_bytes (port : SocketPort) (bytes : List Nat)
    (hclosed : port.closed = false) (hproto : port.string_protocol = false) :
    port.pump (bytes.map BinRead.byte) [] =
      ⟨{ port with parser := feedBytes port.parser bytes },
        bytes.length, none⟩ := by
  simp [SocketPort.pump, hclosed, hproto, pendingBin_bytes]

theorem pumpChunks_join (chunks : List (List Nat)) :
    ∀ port : SocketPort, port.closed = false → port.string_protocol = false →
      pumpChunks port chunks =
        { port with parser := feedBytes port.parser chunks.flatten } := by
  induction chunks with
  | nil => intro port _ _; simp [pumpChunks, feedBytes]
  | cons c cs ih =>
      intro port hclosed hproto
      have hstep := pump_bytes port c hclosed hproto
      simp only [pumpChunks, List.foldl_cons, hstep]
      have := ih { port with parser := feedBytes port.parser c } hclosed hproto
      simp only [pumpChunks] at this
      rw [this]
      simp [feedBytes, List.foldl_append]

theorem feedBytes_data (data : List Nat) :
    ∀ (s : Nat) (acc : List Nat) (M : List (List Nat)),
      (∀ b ∈ data, b < 128) → data ≠ [] →
      (s :: (acc ++ data)).length = msg_len s →
      feedBytes ⟨s :: acc, M⟩ data = ⟨[], M ++ [s :: (acc ++ data)]⟩ := by
  induction data with
  | nil => intro s acc M _ hne _; exact absurd rfl hne
  | cons b ds ih =>
      intro s acc M hlt _ hlen
      have hb : b < 128 := hlt b (List.mem_cons_self b ds)
      have hfeed : feed_byte ⟨s :: acc, M⟩ b =
          if (s :: acc ++ [b]).length = msg_len s then
            ⟨[], M ++ [s :: acc ++ [b]]⟩
          else ⟨s :: acc ++ [b], M⟩ := by
        unfold feed_byte
        rw [if_neg (by omega), if_pos hb]
      cases ds with
      | nil =>
          have hdone : ((s :: acc) ++ [b]).length = msg_len s := by
            simp at hlen ⊢
            omega
          simp only [feedBytes, List.foldl_cons, List.foldl_nil, hfeed]
          rw [if_pos hdone]
          simp
      | cons b' ds' =>
          have hmore : ¬(((s :: acc) ++ [b]).length = msg_len s) := by
            intro hcon
            simp at hcon hlen
            omega
          have hstep : feedBytes ⟨s :: acc, M⟩ (b :: b' :: ds') =
              feedBytes ⟨s :: (acc ++ [b]), M⟩ (b' :: ds') := by
            simp only [feedBytes, List.foldl_cons, hfeed]
            rw [if_neg hmore]
            simp
          rw [hstep, ih s (acc ++ [b]) M
            (fun x hx => hlt x (List.mem_cons_of_mem b hx))
            (List.cons_ne_nil b' ds')
            (by simp at hlen ⊢; omega)]
          simp

theorem two_le_msg_len (s : Nat) : 2 ≤ msg_len s := by
  unfold msg_len
  split_ifs <;> omega

theorem feedBytes_valid_msg (m : List Nat) (M : List (List Nat))
    (h : valid_msg m = true) :
    feedBytes ⟨[], M⟩ m = ⟨[], M ++ [m]⟩ := by
  match m with
  | [] => simp [valid_msg] at h
  | s :: rest =>
      simp only [valid_msg, Bool.and_eq_true, decide_eq_true_eq,
        List.all_eq_true] at h
      obtain ⟨⟨⟨hs1, hs2⟩, hrest⟩, hlen⟩ := h
      have hne : rest ≠ [] := by
        intro hcon
        subst hcon
        have := two_le_msg_len s
        simp at hlen
        omega
      have hfirst : feed_byte ⟨[], M⟩ s = ⟨[s], M⟩ := by
        unfold feed_byte
        rw [if_pos ⟨hs1, hs2⟩]
      have : feedBytes ⟨[], M⟩ (s :: rest) = feedBytes ⟨[s], M⟩ rest := by
        simp [feedBytes, hfirst]
      rw [this]
      have := feedBytes_data rest s [] M
        (fun b hb => by simpa using hrest b hb) hne (by simpa using hlen)
      simpa using this

theorem feedBytes_msgs (msgs : List (List Nat)) :
    ∀ M : List (List Nat), (∀ m ∈ msgs, valid_msg m = true) →
      feedBytes ⟨[], M⟩ msgs.flatten = ⟨[], M ++ msgs⟩ := by
  induction msgs with
  | nil => intro M _; simp [feedBytes]
  | cons m ms ih =>
      intro M hvalid
      have hm := hvalid m (List.mem_cons_self m ms)
      have hrest : ∀ x ∈ ms, valid_msg x = true :=
        fun x hx => hvalid x (List.mem_cons_of_mem m hx)
      calc feedBytes ⟨[], M⟩ (m :: ms).flatten
          = feedBytes (feedBytes ⟨[], M⟩ m) ms.flatten := by
            simp [feedBytes, List.foldl_append]
        _ = feedBytes ⟨[], M ++ [m]⟩ ms.flatten := by
            rw [feedBytes_valid_msg m M hm]
        _ = ⟨[], M ++ m :: ms⟩ := by rw [ih (M ++ [m]) hrest]; simp

theorem pendingBin_append (pre : List Nat) (rest : List BinRead) :
    ∀ port : SocketPort,
      port.pendingBin (pre.map BinRead.byte ++ rest) =
        ⟨(SocketPort.pendingBin
            { port with parser := feedBytes port.parser pre } rest).port,
         (SocketPort.pendingBin
            { port with parser := feedBytes port.parser pre } rest).reads
           + pre.length,
         (SocketPort.pendingBin
            { port with parser := feedBytes port.parser pre } rest).error⟩ := by
  induction pre with
  | nil => intro port; simp [feedBytes]
  | cons b bs ih =>
      intro port
      simp only [List.map_cons, List.cons_append, SocketPort.pendingBin,
        List.append_eq, ih, feedBytes, List.foldl_cons]
      simp only [PumpResult.mk.injEq, List.length_cons, eq_self_iff_true,
        true_and, and_true]
      omega

/-- Appending already-decoded messages to a port's pending queue (proof
infrastructure for reasoning about the text-mode pump). -/
def addMsgs (port : SocketPort) (ms : List (List Nat)) : SocketPort :=
  { port with parser :=
      { port.parser with messages := port.parser.messages ++ ms } }

theorem addMsgs_nil (port : SocketPort) : addMsgs port [] = port := by
  simp [addMsgs]

theorem pendingText_lines (pre : List (List Char)) :
    ∀ (port : SocketPort) (rest : List TextRead),
      (∀ l ∈ pre, (parse_string l).isSome = true) →
      port.pendingText (pre.map TextRead.line ++ rest) =
        ⟨(SocketPort.pendingText
            (addMsgs port (pre.filterMap parse_string)) rest).port,
         (SocketPort.pendingText
            (addMsgs port (pre.filterMap parse_string)) rest).reads
           + pre.length,
         (SocketPort.pendingText
            (addMsgs port (pre.filterMap parse_string)) rest).error⟩ := by
  induction pre with
  | nil =>
      intro port rest _
      simp [addMsgs_nil]
  | cons l ls ih =>
      intro port rest hall
      obtain ⟨m, hm⟩ := Option.isSome_iff_exists.mp
        (hall l (List.mem_cons_self l ls))
      have hcomp : addMsgs (addMsgs port [m]) (ls.filterMap parse_string) =
          addMsgs port ((l :: ls).filterMap parse_string) := by
        simp [addMsgs, List.filterMap_cons, hm]
      simp only [List.map_cons, List.cons_append, SocketPort.pendingText,
        List.append_eq, hm]
      have harg : ({ port with parser :=
            { port.parser with
                messages := port.parser.messages ++ [m] } } : SocketPort) =
          addMsgs port [m] := rfl
      rw [harg, ih (addMsgs port [m]) rest
        (fun x hx => hall x (List.mem_cons_of_mem l hx)), hcomp]
      simp only [PumpResult.mk.injEq, List.length_cons, eq_self_iff_true,
        true_and, and_true]
      omega

theorem pump_eof (port : SocketPort) (pre : List Nat) (rest : List BinRead)
    (hclosed : port.closed = false) (hproto : port.string_protocol = false) :
    port.pump (pre.map BinRead.byte ++ BinRead.eof :: rest) [] =
      ⟨SocketPort.close { port with parser := feedBytes port.parser pre },
        pre.length + 1, none⟩ := by
  simp only [SocketPort.pump, hclosed, hproto, Bool.false_eq_true,
    if_false, pendingBin_append]
  simp [SocketPort.pendingBin]
  omega

theorem pump_err (port : SocketPort) (pre : List Nat) (rest : List BinRead)
    (hclosed : port.closed = false) (hproto : port.string_protocol = false) :
    port.pump (pre.map BinRead.byte ++ BinRead.err :: rest) [] =
      ⟨SocketPort.close { port with parser := feedBytes port.parser pre },
        pre.length + 1, none⟩ := by
  simp only [SocketPort.pump, hclosed, hproto, Bool.false_eq_true,
    if_false, pendingBin_append]
  simp [SocketPort.pendingBin]
  omega

theorem pump_text_ok (port : SocketPort) (pre : List (List Char))
    (hclosed : port.closed = false) (hproto : port.string_protocol = true)
    (hpre : ∀ l ∈ pre, (parse_string l).isSome = true) :
    port.pump [] (pre.map TextRead.line) =
      ⟨addMsgs port (pre.filterMap parse_string), pre.length, none⟩ := by
  have h := pendingText_lines pre port [] hpre
  simp only [List.append_nil] at h
  simp only [SocketPort.pump, hclosed, hproto, Bool.false_eq_true,
    if_false, if_true, h]
  simp [SocketPort.pendingText]

theorem pump_text_eof (port : SocketPort) (pre : List (List Char))
    (rest : List TextRead)
    (hclosed : port.closed = false) (hproto : port.string_protocol = true)
    (hpre : ∀ l ∈ pre, (parse_string l).isSome = true) :
    port.pump [] (pre.map TextRead.line ++ TextRead.eofLine :: rest) =
      ⟨SocketPort.close (addMsgs port (pre.filterMap parse_string)),
        pre.length + 1, none⟩ := by
  simp only [SocketPort.pump, hclosed, hproto, Bool.false_eq_true,
    if_false, if_true, pendingText_lines pre port
      (TextRead.eofLine :: rest) hpre]
  simp [SocketPort.pendingText]
  omega

theorem pump_text_bad (port : SocketPort) (pre : List (List Char))
    (s : List Char) (rest : List TextRead)
    (hclosed : port.closed = false) (hproto : port.string_protocol = true)
    (hpre : ∀ l ∈ pre, (parse_string l).isSome = true)
    (hbad : parse_string s = none) :
    port.pump [] (pre.map TextRead.line ++ TextRead.line s :: rest) =
      ⟨addMsgs port (pre.filterMap parse_string), pre.length + 1,
        some (DecodeError.malformed s)⟩ := by
  simp only [SocketPort.pump, hclosed, hproto, Bool.false_eq_true,
    if_false, if_true, pendingText_lines pre port
      (TextRead.line s :: rest) hpre]
  simp [SocketPort.pendingText, hbad]
  omega

/-! ## Lemmas about colon splitting -/

theorem split_colon_ne_nil (s : List Char) : split_colon s ≠ [] := by
  induction s with
  | nil => simp [split_colon]
  | cons c rest _ =>
      by_cases hc : c = ':'
      · simp [split_colon, hc]
      · simp only [split_colon, if_neg hc]
        cases hsp : split_colon rest with
        | nil => simp
        | cons w ws => simp

theorem split_colon_length (s : List Char) :
    (split_colon s).length = s.count ':' + 1 := by
  induction s with
  | nil => simp [split_colon]
  | cons c rest ih =>
      by_cases hc : c = ':'
      · subst hc
        simp [split_colon, ih, List.count_cons]
      · simp only [split_colon, if_neg hc]
        cases hsp : split_colon rest with
        | nil => exact absurd hsp (split_colon_ne_nil rest)
        | cons w ws =>
            rw [hsp] at ih
            simp [List.count_cons, hc] at ih ⊢
            omega

theorem split_colon_no_colon (s : List Char) (h : ':' ∉ s) :
    split_colon s = [s] := by
  induction s with
  | nil => rfl
  | cons c cs ih =>
      have hc : ¬(c = ':') := fun hcon => h (hcon ▸ List.mem_cons_self c cs)
      have ihcs := ih (fun hm => h (List.mem_cons_of_mem c hm))
      simp only [split_colon, if_neg hc, ihcs]

theorem split_colon_append (host portStr : List Char)
    (hh : ':' ∉ host) (hp : ':' ∉ portStr) :
    split_colon (host ++ ':' :: portStr) = [host, portStr] := by
  induction host with
  | nil =>
      simp only [List.nil_append, split_colon, if_pos rfl]
      rw [split_colon_no_colon portStr hp]
      simp
  | cons c cs ih =>
      have hc : ¬(c = ':') := fun hcon => hh (hcon ▸ List.mem_cons_self c cs)
      have ihcs := ih (fun hm => hh (List.mem_cons_of_mem c hm))
      simp only [List.cons_append, split_colon, if_neg hc, List.append_eq,
        ihcs]

theorem split_colon_eq_single (s : List Char) : ∀ b : List Char,
    split_colon s = [b] → s = b ∧ ':' ∉ b := by
  induction s with
  | nil =>
      intro b h
      simp only [split_colon, List.cons.injEq] at h
      exact ⟨h.1, by rw [← h.1]; simp⟩
  | cons c cs ih =>
      intro b h
      by_cases hc : c = ':'
      · simp only [split_colon, if_pos hc, List.cons.injEq] at h
        exact absurd h.2 (split_colon_ne_nil cs)
      · simp only [split_colon, if_neg hc] at h
        cases hsp : split_colon cs with
        | nil => exact absurd hsp (split_colon_ne_nil cs)
        | cons w ws =>
            rw [hsp] at h
            simp only [List.cons.injEq] at h
            obtain ⟨hb, hws⟩ := h
            subst hws
            obtain ⟨hcs, hw⟩ := ih w hsp
            subst hcs
            constructor
            · exact hb
            · rw [← hb]
              intro hmem
              rcases List.mem_cons.mp hmem with h1 | h2
              · exact hc h1.symm
              · exact hw h2

theorem split_colon_eq_pair (s : List Char) : ∀ a b : List Char,
    split_colon s = [a, b] →
      s = a ++ ':' :: b ∧ ':' ∉ a ∧ ':' ∉ b := by
  induction s with
  | nil =>
      intro a b h
      simp [split_colon] at h
  | cons c cs ih =>
      intro a b h
      by_cases hc : c = ':'
      · subst hc
        simp only [split_colon, if_pos rfl] at h
        injection h with ha htail
        obtain ⟨hcsb, hb⟩ := split_colon_eq_single cs b htail
        subst ha
        subst hcsb
        exact ⟨by simp, by simp, hb⟩
      · simp only [split_colon, if_neg hc] at h
        cases hsp : split_colon cs with
        | nil => exact absurd hsp (split_colon_ne_nil cs)
        | cons w ws =>
            rw [hsp] at h
            simp only [List.cons.injEq] at h
            obtain ⟨ha, hws⟩ := h
            subst hws
            obtain ⟨hcs, hw, hb⟩ := ih w b hsp
            subst hcs
            refine ⟨by rw [← ha]; simp, ?_, hb⟩
            rw [← ha]
            intro hmem
            rcases List.mem_cons.mp hmem with h1 | h2
            · exact hc h1.symm
            · exact hw h2

/-! ## Claim theorems -/

/-- C1: for every sequence of bytes that forms N valid binary MIDI
messages, feeding those bytes through a binary-mode Transport Port's
pump step — in any chunking of the byte stream into reads — yields
exactly the N decoded messages in the pending queue, in the original
order, and leaves the port open. -/
theorem binary_pump_chunking (msgs chunks : List (List Nat))
    (port : SocketPort)
    (hclosed : port.closed = false) (hproto : port.string_protocol = false)
    (hparser : port.parser = ⟨[], []⟩)
    (hvalid : ∀ m ∈ msgs, valid_msg m = true)
    (hchunk : chunks.flatten = msgs.flatten) :
    (pumpChunks port chunks).parser.messages = msgs ∧
      (pumpChunks port chunks).closed = false := by
  rw [pumpChunks_join chunks port hclosed hproto, hparser, hchunk,
    feedBytes_msgs msgs [] hvalid]
  simp [hclosed]

/-- Witness for C1: a note-on and a program-change message delivered in
two reads that split the first message. -/
theorem binary_pump_chunking_witness :
    (pumpChunks (SocketPort.init "host" 8080 none false 0)
        [[144, 60], [64, 192, 7]]).parser.messages =
        [[144, 60, 64], [192, 7]] ∧
      (pumpChunks (SocketPort.init "host" 8080 none false 0)
        [[144, 60], [64, 192, 7]]).closed = false :=
  binary_pump_chunking [[144, 60, 64], [192, 7]] [[144, 60], [64, 192, 7]]
    (SocketPort.init "host" 8080 none false 0) rfl rfl rfl
    (by decide) (by decide)

/-- C2: a closed Transport Port's pump step is a no-op: it returns the
port unchanged (no messages are produced), performs no reads, and
raises nothing. -/
theorem closed_pump_noop (port : SocketPort) (binInput : List BinRead)
    (textInput : List TextRead) (h : port.closed = true) :
    port.pump binInput textInput = ⟨port, 0, none⟩ := by
  simp [SocketPort.pump, h]

/-- Witness for C2: pumping a closed port with data available on the
socket reads nothing and changes nothing. -/
theorem closed_pump_noop_witness :
    (SocketPort.init "host" 8080 none false 0).close.pump
        [BinRead.byte 144] [TextRead.line ['x']] =
      ⟨(SocketPort.init "host" 8080 none false 0).close, 0, none⟩ :=
  closed_pump_noop _ _ _ rfl

/-- C5: the Port Server's non-blocking accept step returns no new
connection (and leaves the server untouched) when nothing is pending on
the listening socket; when a connection is pending it accepts it and
returns a fresh server-accepted Transport Port wrapping that connection
in binary mode. -/
theorem accept_nonblocking (sv : PortServer) (env : AcceptEnv) :
    (env.pending = false → sv.accept env false = (none, sv)) ∧
      (env.pending = true → ∃ port,
        (sv.accept env false).1 = some port ∧
          port.socket = env.conn ∧ port.string_protocol = false ∧
          port.closed = false ∧ port.parser = ⟨[], []⟩ ∧
          port.name = env.peerHost ++ ":" ++ toString env.peerPort) := by
  constructor
  · intro h
    simp [PortServer.accept, h]
  · intro h
    refine ⟨SocketPort.init env.peerHost env.peerPort (some env.conn)
      false 0, ?_, rfl, rfl, rfl, rfl, rfl⟩
    simp [PortServer.accept, h]

/-- Witness for C5: accepting with and without a pending connection on
a concrete server. -/
theorem accept_nonblocking_witness :
    (PortServer.mk "srv" 9000 []).accept ⟨false, 7, "client", 5⟩ false =
        (none, PortServer.mk "srv" 9000 []) ∧
      ∃ port,
        ((PortServer.mk "srv" 9000 []).accept
            ⟨true, 7, "client", 5⟩ false).1 = some port ∧
          port.socket = 7 ∧ port.string_protocol = false ∧
          port.closed = false ∧ port.parser = ⟨[], []⟩ ∧
          port.name = "client" ++ ":" ++ toString 5 :=
  ⟨(accept_nonblocking (PortServer.mk "srv" 9000 [])
      ⟨false, 7, "client", 5⟩).1 rfl,
   (accept_nonblocking (PortServer.mk "srv" 9000 [])
      ⟨true, 7, "client", 5⟩).2 rfl⟩

/-- C6: in binary mode, a read yielding end-of-stream closes the port
and stops the pump loop after that read, and a read error likewise
closes the port and stops the loop; in both cases no exception
propagates to the caller of the pump step. -/
theorem binary_eof_and_error_close (port : SocketPort) (pre : List Nat)
    (rest : List BinRead)
    (hclosed : port.closed = false) (hproto : port.string_protocol = false) :
    ((port.pump (pre.map BinRead.byte ++ BinRead.eof :: rest) []).port.closed
        = true ∧
      (port.pump (pre.map BinRead.byte ++ BinRead.eof :: rest) []).reads
        = pre.length + 1 ∧
      (port.pump (pre.map BinRead.byte ++ BinRead.eof :: rest) []).error
        = none) ∧
    ((port.pump (pre.map BinRead.byte ++ BinRead.err :: rest) []).port.closed
        = true ∧
      (port.pump (pre.map BinRead.byte ++ BinRead.err :: rest) []).reads
        = pre.length + 1 ∧
      (port.pump (pre.map BinRead.byte ++ BinRead.err :: rest) []).error
        = none) := by
  simp only [SocketPort.pump, hclosed, hproto, Bool.false_eq_true,
    if_false, pendingBin_append]
  simp [SocketPort.pendingBin, SocketPort.close]
  omega

/-- Witness for C6: one byte then end-of-stream (and one byte then a
socket error) on a fresh binary port. -/
theorem binary_eof_and_error_close_witness :
    (((SocketPort.init "host" 8080 none false 0).pump
        ([144].map BinRead.byte ++ BinRead.eof :: [BinRead.byte 60])
        []).port.closed = true ∧
      ((SocketPort.init "host" 8080 none false 0).pump
        ([144].map BinRead.byte ++ BinRead.eof :: [BinRead.byte 60])
        []).reads = [144].length + 1 ∧
      ((SocketPort.init "host" 8080 none false 0).pump
        ([144].map BinRead.byte ++ BinRead.eof :: [BinRead.byte 60])
        []).error = none) ∧
    (((SocketPort.init "host" 8080 none false 0).pump
        ([144].map BinRead.byte ++ BinRead.err :: [BinRead.byte 60])
        []).port.closed = true ∧
      ((SocketPort.init "host" 8080 none false 0).pump
        ([144].map BinRead.byte ++ BinRead.err :: [BinRead.byte 60])
        []).reads = [144].length + 1 ∧
      ((SocketPort.init "host" 8080 none false 0).pump
        ([144].map BinRead.byte ++ BinRead.err :: [BinRead.byte 60])
        []).error = none) :=
  binary_eof_and_error_close (SocketPort.init "host" 8080 none false 0)
    [144] [BinRead.byte 60] rfl rfl

/-- C7 counterexample: the claim says a write I/O error closes the
port, but `_send` has no exception handler and never assigns `closed`,
so after a send whose stream write raises an I/O error an open port is
still open — the error propagates and the port is not destroyed. -/
theorem send_error_does_not_close :
    (run_op (SocketPort.init "host" 8080 none false 0)
        (Op.sendOp ⟨[144, 60, 64], ['n']⟩ false)).closed = false := rfl

/-- C7 (amended): the `closed` flag is monotonic — once true it stays
true under every operation — and becomes true exactly on an explicit
close request, a read returning end-of-stream (in either mode), or a
read I/O error (binary mode, where `socket.error` is caught).  A send
leaves the flag unchanged even when the stream write raises an I/O
error (the error propagates to the caller instead), and pump steps
that only read data bytes, well-formed lines, or a malformed line
never set the flag. -/
theorem closed_flag_transitions :
    (∀ (port : SocketPort) (op : Op), port.closed = true →
        (run_op port op).closed = true) ∧
    (∀ port : SocketPort, (run_op port Op.close).closed = true) ∧
    (∀ (port : SocketPort) (message : Message) (writeOk : Bool),
        (run_op port (Op.sendOp message writeOk)).closed = port.closed) ∧
    (∀ (port : SocketPort) (pre : List Nat) (rest : List BinRead),
        port.closed = false → port.string_protocol = false →
        (run_op port (Op.pumpOp
          (pre.map BinRead.byte ++ BinRead.eof :: rest) [])).closed
          = true) ∧
    (∀ (port : SocketPort) (pre : List Nat) (rest : List BinRead),
        port.closed = false → port.string_protocol = false →
        (run_op port (Op.pumpOp
          (pre.map BinRead.byte ++ BinRead.err :: rest) [])).closed
          = true) ∧
    (∀ (port : SocketPort) (bytes : List Nat),
        port.string_protocol = false →
        (run_op port (Op.pumpOp (bytes.map BinRead.byte) [])).closed
          = port.closed) ∧
    (∀ (port : SocketPort) (pre : List (List Char)) (rest : List TextRead),
        port.closed = false → port.string_protocol = true →
        (∀ l ∈ pre, (parse_string l).isSome = true) →
        (run_op port (Op.pumpOp []
          (pre.map TextRead.line ++ TextRead.eofLine :: rest))).closed
          = true) ∧
    (∀ (port : SocketPort) (pre : List (List Char)) (s : List Char)
        (rest : List TextRead),
        port.closed = false → port.string_protocol = true →
        (∀ l ∈ pre, (parse_string l).isSome = true) →
        parse_string s = none →
        (run_op port (Op.pumpOp []
          (pre.map TextRead.line ++ TextRead.line s :: rest))).closed
          = false) ∧
    (∀ (port : SocketPort) (pre : List (List Char)),
        port.string_protocol = true →
        (∀ l ∈ pre, (parse_string l).isSome = true) →
        (run_op port (Op.pumpOp [] (pre.map TextRead.line))).closed
          = port.closed) := by
  refine ⟨?_, ?_, ?_, ?_, ?_, ?_, ?_, ?_, ?_⟩
  · intro port op h
    cases op <;> simp [run_op, SocketPort.pump, SocketPort.close, h]
  · intro port
    simp [run_op, SocketPort.close]
  · intro port message writeOk
    rfl
  · intro port pre rest hclosed hproto
    simp [run_op, pump_eof port pre rest hclosed hproto, SocketPort.close]
  · intro port pre rest hclosed hproto
    simp [run_op, pump_err port pre rest hclosed hproto, SocketPort.close]
  · intro port bytes hproto
    by_cases hclosed : port.closed
    · simp [run_op, SocketPort.pump, hclosed]
    · rw [Bool.not_eq_true] at hclosed
      simp [run_op, pump_bytes port bytes hclosed hproto, hclosed]
  · intro port pre rest hclosed hproto hpre
    simp [run_op, pump_text_eof port pre rest hclosed hproto hpre,
      SocketPort.close]
  · intro port pre s rest hclosed hproto hpre hbad
    simp [run_op, pump_text_bad port pre s rest hclosed hproto hpre hbad,
      addMsgs, hclosed]
  · intro port pre hproto hpre
    by_cases hclosed : port.closed
    · simp [run_op, SocketPort.pump, hclosed]
    · rw [Bool.not_eq_true] at hclosed
      simp [run_op, pump_text_ok port pre hclosed hproto hpre, addMsgs]

/-- Witness for C7 (amended): end-of-stream after one byte closes a
concrete binary port, and an immediate end-of-stream closes a concrete
text port. -/
theorem closed_flag_transitions_witness :
    (run_op (SocketPort.init "host" 8080 none false 0)
        (Op.pumpOp ([144].map BinRead.byte ++ BinRead.eof :: []) [])
      ).closed = true ∧
    (run_op (SocketPort.init "host" 8080 none true 0)
        (Op.pumpOp [] ([].map TextRead.line ++ TextRead.eofLine :: []))
      ).closed = true :=
  ⟨closed_flag_transitions.2.2.2.1
      (SocketPort.init "host" 8080 none false 0) [144] [] rfl rfl,
   closed_flag_transitions.2.2.2.2.2.2.1
      (SocketPort.init "host" 8080 none true 0) [] [] rfl rfl
      (by simp)⟩

theorem cycle_trace (sv : PortServer) (env : CycleEnv) :
    (sv.cycle env).trace =
      (if env.acceptEnv.pending then
        [Action.acceptAttempt, Action.prune, Action.acceptConn]
      else [Action.acceptAttempt]) ++
        [Action.prune, Action.sweep, Action.backoff] := by
  by_cases hp : env.acceptEnv.pending <;>
    simp [PortServer.cycle, PortServer.accept, hp]

theorem cycle_sweepEntry (sv : PortServer) (env : CycleEnv) :
    ∀ p ∈ (sv.cycle env).sweepEntryPorts, p.closed = false := by
  have h : ∀ l : List SocketPort,
      ∀ p ∈ l.filter (fun port => !port.closed), p.closed = false := by
    intro l p hp
    have := (List.mem_filter.mp hp).2
    simpa using this
  by_cases hp : env.acceptEnv.pending <;>
    simp only [PortServer.cycle, PortServer.accept, PortServer.updatePorts,
      hp] <;>
    exact h _

/-- C3 counterexample: the claim places the prune before the
non-blocking accept attempt, but in `PortServer.__iter__` the accept
attempt (`self.accept(block=False)`) runs first and `_update_ports`
only afterwards.  At a concrete server and cycle environment with no
pending connection the cycle's trace is
`[acceptAttempt, prune, sweep, backoff]`: the first prune does not
occur before the accept attempt. -/
theorem prune_not_before_accept :
    ¬ (((PortServer.mk "srv" 9000 []).cycle
          ⟨⟨false, 0, "client", 5⟩, fun _ => [], fun _ => []⟩).trace.indexOf
            Action.prune <
        ((PortServer.mk "srv" 9000 []).cycle
          ⟨⟨false, 0, "client", 5⟩, fun _ => [], fun _ => []⟩).trace.indexOf
            Action.acceptAttempt) := by
  decide

/-- C3 (amended): in every cycle of the combined iteration, closed
ports are pruned after the non-blocking accept attempt and before the
receive sweep (a prune occurs in every cycle); consequently the
live-port collection as seen by the sweep contains no closed port, so
the collection never holds a closed port for more than one iteration
step. -/
theorem prune_after_accept_before_sweep (sv : PortServer) (env : CycleEnv) :
    ((sv.cycle env).trace.indexOf Action.acceptAttempt <
        (sv.cycle env).trace.indexOf Action.prune) ∧
      ((sv.cycle env).trace.indexOf Action.prune <
        (sv.cycle env).trace.indexOf Action.sweep) ∧
      Action.prune ∈ (sv.cycle env).trace ∧
      ∀ p ∈ (sv.cycle env).sweepEntryPorts, p.closed = false := by
  refine ⟨?_, ?_, ?_, cycle_sweepEntry sv env⟩ <;>
    rw [cycle_trace] <;>
    by_cases hp : env.acceptEnv.pending <;>
    simp [hp]

/-- Witness for C3 (amended): a concrete one-port server's cycle leaves
that (open) port in the collection the sweep sees, and the theorem
reports it open. -/
theorem prune_after_accept_before_sweep_witness :
    (SocketPort.init "c" 5 (some 7) false 0).closed = false :=
  (prune_after_accept_before_sweep
      (PortServer.mk "srv" 9000 [SocketPort.init "c" 5 (some 7) false 0])
      ⟨⟨false, 0, "client", 5⟩, fun _ => [], fun _ => []⟩).2.2.2
    (SocketPort.init "c" 5 (some 7) false 0) (by decide)

/-- C8: in text mode, a malformed input line makes the pump step fail
with a decoding error that is visible to the caller: the error is
raised out of the pump step (not suppressed), the malformed line is
read and reported rather than silently dropped, and the port is not
closed by it. -/
theorem text_decode_error_visible (port : SocketPort)
    (pre : List (List Char)) (s : List Char) (rest : List TextRead)
    (hclosed : port.closed = false) (hproto : port.string_protocol = true)
    (hpre : ∀ l ∈ pre, (parse_string l).isSome = true)
    (hbad : parse_string s = none) :
    (port.pump [] (pre.map TextRead.line ++ TextRead.line s :: rest)).error
        = some (DecodeError.malformed s) ∧
      (port.pump [] (pre.map TextRead.line ++ TextRead.line s :: rest)
        ).port.closed = false ∧
      (port.pump [] (pre.map TextRead.line ++ TextRead.line s :: rest)
        ).reads = pre.length + 1 := by
  simp only [SocketPort.pump, hclosed, hproto, Bool.false_eq_true,
    if_false, if_true, pendingText_lines pre port
      (TextRead.line s :: rest) hpre]
  simp [SocketPort.pendingText, hbad, addMsgs]
  exact ⟨hclosed, by omega⟩

/-- Witness for C8: a well-formed line followed by a malformed line on
a fresh text-mode port. -/
theorem text_decode_error_visible_witness :
    ((SocketPort.init "host" 8080 none true 0).pump []
        ([['1', '4', '4', ' ', '6', '0', ' ', '6', '4']].map TextRead.line
          ++ TextRead.line ['o', 'o', 'p', 's'] :: [])).error
        = some (DecodeError.malformed ['o', 'o', 'p', 's']) ∧
      ((SocketPort.init "host" 8080 none true 0).pump []
        ([['1', '4', '4', ' ', '6', '0', ' ', '6', '4']].map TextRead.line
          ++ TextRead.line ['o', 'o', 'p', 's'] :: [])).port.closed = false ∧
      ((SocketPort.init "host" 8080 none true 0).pump []
        ([['1', '4', '4', ' ', '6', '0', ' ', '6', '4']].map TextRead.line
          ++ TextRead.line ['o', 'o', 'p', 's'] :: [])).reads
        = [['1', '4', '4', ' ', '6', '0', ' ', '6', '4']].length + 1 :=
  text_decode_error_visible (SocketPort.init "host" 8080 none true 0)
    [['1', '4', '4', ' ', '6', '0', ' ', '6', '4']] ['o', 'o', 'p', 's']
    [] rfl rfl (by decide) (by decide)

/-- C4: the Address Parser is pure, returns exactly the host substring
with the integer port when the input has exactly one colon, an integer
port segment and a port in `(0, 65536)`, and fails with a
`FormatError` precisely when the number of colons differs from one,
the port segment is not an integer, or the port is out of range. -/
theorem parse_address_correct (address : List Char) :
    (∀ (host : List Char) (p : Int),
        parse_address address = Except.ok (host, p) ↔
          ∃ portStr, address = host ++ ':' :: portStr ∧ ':' ∉ host ∧
            ':' ∉ portStr ∧ py_int portStr = some p ∧ 0 < p ∧ p < 65536) ∧
      (address.count ':' ≠ 1 →
        parse_address address = Except.error FormatError.colons) ∧
      (∀ host portStr, address = host ++ ':' :: portStr → ':' ∉ host →
          ':' ∉ portStr →
          (py_int portStr = none →
            parse_address address = Except.error FormatError.notInt) ∧
          (∀ p : Int, py_int portStr = some p → ¬(0 < p ∧ p < 65536) →
            parse_address address = Except.error FormatError.range)) := by
  refine ⟨?_, ?_, ?_⟩
  · intro host p
    constructor
    · intro h
      cases hsp : split_colon address with
      | nil => exact absurd hsp (split_colon_ne_nil address)
      | cons w ws =>
          cases ws with
          | nil => simp [parse_address, hsp] at h
          | cons w2 ws2 =>
              cases ws2 with
              | nil =>
                  cases hpi : py_int w2 with
                  | none =>
                      simp [parse_address, hsp, hpi] at h
                  | some q =>
                      have hpa : parse_address address =
                          if 0 < q ∧ q < 65536 then Except.ok (w, q)
                          else Except.error FormatError.range := by
                        simp [parse_address, hsp, hpi]
                      rw [hpa] at h
                      by_cases hr : 0 < q ∧ q < 65536
                      · rw [if_pos hr] at h
                        injection h with hpair
                        have hw : w = host := congrArg Prod.fst hpair
                        have hq : q = p := congrArg Prod.snd hpair
                        obtain ⟨hs, ha, hb⟩ :=
                          split_colon_eq_pair address w w2 hsp
                        subst hw
                        subst hq
                        exact ⟨w2, hs, ha, hb, hpi, hr.1, hr.2⟩
                      · rw [if_neg hr] at h
                        simp at h
              | cons w3 ws3 => simp [parse_address, hsp] at h
    · rintro ⟨portStr, rfl, hh, hp, hpi, hlo, hhi⟩
      simp [parse_address, split_colon_append host portStr hh hp, hpi,
        hlo, hhi]
  · intro hcount
    have hlen : (split_colon address).length ≠ 2 := by
      rw [split_colon_length]
      omega
    cases hsp : split_colon address with
    | nil => simp [parse_address, hsp]
    | cons w ws =>
        cases ws with
        | nil => simp [parse_address, hsp]
        | cons w2 ws2 =>
            cases ws2 with
            | nil =>
                rw [hsp] at hlen
                simp at hlen
            | cons w3 ws3 => simp [parse_address, hsp]
  · intro host portStr haddr hh hp
    subst haddr
    have hsp := split_colon_append host portStr hh hp
    constructor
    · intro hnone
      simp [parse_address, hsp, hnone]
    · intro p hpi hrange
      simp [parse_address, hsp, hpi, hrange]

/-- Witness for C4: a well-formed address, an address with two colons,
and port 0 out of range. -/
theorem parse_address_correct_witness :
    parse_address [':', ':'] = Except.error FormatError.colons ∧
      parse_address ['h', ':', '8', '0'] = Except.ok (['h'], 80) ∧
      parse_address ['h', ':', '0'] = Except.error FormatError.range :=
  ⟨(parse_address_correct [':', ':']).2.1 (by decide),
   ((parse_address_correct ['h', ':', '8', '0']).1 ['h'] 80).mpr
     ⟨['8', '0'], by decide, by decide, by decide, by decide, by decide,
       by decide⟩,
   ((parse_address_correct ['h', ':', '0']).2.2 ['h'] ['0'] (by decide)
       (by decide) (by decide)).2 0 (by decide) (by decide)⟩

/-- C9: the send step writes exactly the message's binary encoding in
binary mode, and exactly its canonical text representation followed by
a newline in text mode, and in both modes flushes the stream
synchronously: afterwards the wire has been extended by exactly the
encoded message (after any previously buffered bytes) and the stream
buffer is empty. -/
theorem send_writes_and_flushes (port : SocketPort) (f : FileStream)
    (message : Message) :
    (port._send f message).wire =
        f.wire ++ f.buf ++
          (if port.string_protocol then
            strBytes (message.text ++ [Char.ofNat 10])
          else message.bin) ∧
      (port._send f message).buf = [] := by
  by_cases h : port.string_protocol <;>
    simp [SocketPort._send, FileStream.write, FileStream.flush, h]

/-- C10: the module-level `connect` ignores its `conn` argument
entirely: the port it builds is the one built with no connection handed
in, and its connection is the newly opened client connection. -/
theorem connect_ignores_conn (host : String) (port : Nat)
    (conn : Option Nat) (string_protocol : Bool) (fresh : Nat) :
    connect host port conn string_protocol fresh =
        connect host port none string_protocol fresh ∧
      (connect host port conn string_protocol fresh).socket = fresh ∧
      connect host port conn string_protocol fresh =
        SocketPort.init host port none string_protocol fresh :=
  ⟨rfl, rfl, rfl⟩

end Mido
